import Mathlib

/-!
Verification of the documented TSRPC client model.

The repository documents an RPC client library: the `ApiReturn` result
union and `HttpOptions` configuration are declared verbatim in the docs
(`use-client.md`, the HttpClient options page); the runtime behaviour of
`callApi` / `abort` / `abortByKey` / `abortAll` is described in prose.
Declared types are embedded directly from the source; behaviour with no
implementation in the repository is modelled from the spec, each such
definition marked `Modelled from the spec:`.
-/

/-- Error kind discriminator of a structured `TsrpcError`
(network, timeout, business, internal), per the documented taxonomy. -/
inductive ErrKind where
  | Network
  | Timeout
  | Business
  | Internal
deriving DecidableEq, Repr

/-- Structured error carried by the error variant of `ApiReturn`. -/
structure TsrpcError where
  type : ErrKind
  message : String
deriving DecidableEq, Repr

/-- Embedding of the documented union
`ApiReturn<Res> = ApiReturnSucc<Res> | ApiReturnError`:
`ApiReturnSucc` has `isSucc: true, res: Res, err?: undefined` and
`ApiReturnError` has `isSucc: false, res?: undefined, err: TsrpcError`. -/
inductive ApiReturn (Res : Type) where
  | succ (res : Res)
  | error (err : TsrpcError)
deriving DecidableEq, Repr

/-- The `isSucc` discriminator field of `ApiReturn`. -/
def ApiReturn.isSucc {Res : Type} : ApiReturn Res → Bool
  | .succ _ => true
  | .error _ => false

/-- The `res` field of `ApiReturn`: present on the success variant,
`undefined` (`none`) on the error variant (`res?: undefined`). -/
def ApiReturn.res {Res : Type} : ApiReturn Res → Option Res
  | .succ r => some r
  | .error _ => none

/-- The `err` field of `ApiReturn`: present on the error variant,
`undefined` (`none`) on the success variant (`err?: undefined`). -/
def ApiReturn.err {Res : Type} : ApiReturn Res → Option TsrpcError
  | .succ _ => none
  | .error e => some e

/-- Exactly one of the `res` payload and the `err` error is populated. -/
def exactlyOneVariant {Res : Type} (r : ApiReturn Res) : Prop :=
  ((r.res).isSome = true ∧ r.err = none) ∨ (r.res = none ∧ (r.err).isSome = true)

/-- Modelled from the spec: raw settlement outcome of the transport /
business layer before normalization (the timeout path is added by the
settlement function itself). The implementation of the result normalizer
is not part of this repository. -/
inductive RawOutcome (Res : Type) where
  | success (res : Res)
  | businessError (message : String)
  | transportError (message : String)
deriving DecidableEq, Repr

/-- Modelled from the spec: the result normalizer wraps every outcome
into one `ApiReturn` value — business and transport failures become the
error variant with the matching kind discriminator. -/
def normalizeOutcome {Res : Type} : RawOutcome Res → ApiReturn Res
  | .success r => .succ r
  | .businessError m => .error ⟨.Business, m⟩
  | .transportError m => .error ⟨.Network, m⟩

/-- Modelled from the spec: a configured `timeout` of `undefined`
(`none`) or `0` means no time limit; otherwise the elapsed time is
checked against the limit. The implementation is not in this repository;
the doc comment on `HttpOptions.timeout` states the `undefined`/`0`
semantics. -/
def timedOut (timeout : Option Nat) (elapsed : Nat) : Bool :=
  match timeout with
  | none => false
  | some 0 => false
  | some limit => decide (limit < elapsed)

/-- Modelled from the spec: settlement of one call — if the configured
time limit fired first the call settles with a timeout error, otherwise
the raw outcome is normalized. Every path yields an `ApiReturn`. -/
def settle {Res : Type} (timeout : Option Nat) (elapsed : Nat)
    (o : RawOutcome Res) : ApiReturn Res :=
  if timedOut timeout elapsed then .error ⟨.Timeout, "Request Timeout"⟩
  else normalizeOutcome o

/-- Modelled from the spec: `callApi` never signals failure through the
exceptional channel — its settlement always uses the ordinary return
path (`Except.ok`), never `Except.error`. -/
def callApiSettles {Res : Type} (timeout : Option Nat) (elapsed : Nat)
    (o : RawOutcome Res) : Except String (ApiReturn Res) :=
  Except.ok (settle timeout elapsed o)

/-- Logger sink for network communication output; the docs allow
`console` or `undefined`. -/
inductive Logger where
  | console
deriving DecidableEq, Repr

/-- Configuration passed by the caller when creating an `HttpClient`:
every field of `HttpClientOptions` may be left unspecified. -/
structure HttpClientOptionsInput where
  server : Option String
  json : Option Bool
  jsonPrune : Option Bool
  logger : Option Logger
  timeout : Option Nat
  debugBuf : Option Bool
deriving DecidableEq, Repr

/-- Resolved `HttpClientOptions` / `HttpOptions` of an `HttpClient`,
embedding the interface declared in the options page: `server : string`,
`json : boolean`, `jsonPrune : boolean`, `logger?: Logger`,
`timeout?: number`, `debugBuf?: boolean`. -/
structure HttpClientOptions where
  server : String
  json : Bool
  jsonPrune : Bool
  logger : Option Logger
  timeout : Option Nat
  debugBuf : Bool
deriving DecidableEq, Repr

/-- Defaults applied at `HttpClient` construction, from the documented
defaults table: server `"http://127.0.0.1:3000"`, json `false`,
jsonPrune `true`, logger `undefined`, timeout `undefined`,
debugBuf `false`. -/
def applyHttpDefaults (o : HttpClientOptionsInput) : HttpClientOptions :=
  { server := o.server.getD "http://127.0.0.1:3000"
  , json := o.json.getD false
  , jsonPrune := o.jsonPrune.getD true
  , logger := o.logger
  , timeout := o.timeout
  , debugBuf := o.debugBuf.getD false }

/-- Modelled from the spec: `WsClient` takes the same configuration
fields with the same defaults for json / jsonPrune / debugBuf, and
pass-through optional logger / timeout; the `WsClientOptions` page is
not part of this repository. The server field is passed through since
the spec states no WebSocket server default. -/
structure WsClientOptions where
  server : Option String
  json : Bool
  jsonPrune : Bool
  logger : Option Logger
  timeout : Option Nat
  debugBuf : Bool
deriving DecidableEq, Repr

/-- Modelled from the spec: defaults applied at `WsClient` construction
for the documented fields shared with `HttpClient`. -/
def applyWsDefaults (o : HttpClientOptionsInput) : WsClientOptions :=
  { server := o.server
  , json := o.json.getD false
  , jsonPrune := o.jsonPrune.getD true
  , logger := o.logger
  , timeout := o.timeout
  , debugBuf := o.debugBuf.getD false }

/-- State of one in-flight request handle:
Pending, then one of the terminal states Completed and Aborted. -/
inductive ReqState where
  | Pending
  | Completed
  | Aborted
deriving DecidableEq, Repr

/-- Request handle tracked by the client: sequence number `sn`, optional
`abortKey` group tag, and current state. -/
structure Request where
  sn : Nat
  abortKey : Option String
  state : ReqState
deriving DecidableEq, Repr

/-- Modelled from the spec: per-instance client state — the SN counter,
`lastSN` of the most recently initiated call, and the tracked request
handles. The client implementation is not part of this repository. -/
structure Client where
  snCounter : Nat
  lastSN : Nat
  requests : List Request
deriving DecidableEq, Repr

/-- First tracked request handle with the given sequence number. -/
def findReq (sn : Nat) : List Request → Option Request
  | [] => none
  | r :: t => if r.sn = sn then some r else findReq sn t

/-- State of the request with the given sequence number, if tracked. -/
def getState (c : Client) (sn : Nat) : Option ReqState :=
  (findReq sn c.requests).map Request.state

/-- Modelled from the spec: `callApi` assigns the next sequence number,
records it as `lastSN`, and registers the request as Pending before the
transport call begins. Returns the updated client and the assigned SN. -/
def callApi (c : Client) (key : Option String) : Client × Nat :=
  let sn := c.snCounter + 1
  ({ snCounter := sn, lastSN := sn
   , requests := c.requests ++ [⟨sn, key, .Pending⟩] }, sn)

/-- Transition applied by `abort` to one handle: a Pending request with
the given SN becomes Aborted; any other handle is left unchanged. -/
def abortReq (sn : Nat) (r : Request) : Request :=
  if r.sn = sn ∧ r.state = .Pending then { r with state := .Aborted } else r

/-- Modelled from the spec: `client.abort(sn)` — if the request with
that SN is Pending it transitions to Aborted; otherwise no effect. -/
def abort (c : Client) (sn : Nat) : Client :=
  { c with requests := c.requests.map (abortReq sn) }

/-- Modelled from the spec: `client.abortByKey(key)` aborts every
outstanding request registered with that abortKey, by aborting each of
their sequence numbers in turn. -/
def abortByKey (c : Client) (key : String) : Client :=
  List.foldl abort c
    ((c.requests.filter (fun r => r.abortKey = some key)).map Request.sn)

/-- Modelled from the spec: `client.abortAll()` aborts every outstanding
request under the client. -/
def abortAll (c : Client) : Client :=
  List.foldl abort c (c.requests.map Request.sn)

/-- Transition applied when a transport response for the given SN is
delivered: a Pending request with that SN becomes Completed. -/
def completeReq (sn : Nat) (r : Request) : Request :=
  if r.sn = sn ∧ r.state = .Pending then { r with state := .Completed } else r

/-- Modelled from the spec: arrival of a transport response for the
given SN. If the request is still Pending it completes and the
`ApiReturn` is delivered to the caller (`some` delivery); if the request
was aborted or is unknown the response is discarded (`none`). -/
def onResponse {R : Type} (c : Client) (sn : Nat) (ret : ApiReturn R) :
    Client × Option (Nat × ApiReturn R) :=
  match findReq sn c.requests with
  | some r =>
    if r.state = .Pending
    then ({ c with requests := c.requests.map (completeReq sn) }, some (sn, ret))
    else (c, none)
  | none => (c, none)

/-- Observable events on a client instance: initiating a call, the three
cancellation operations, and arrival of a transport response. -/
inductive Event (R : Type) where
  | call (key : Option String)
  | abortEv (sn : Nat)
  | abortByKeyEv (key : String)
  | abortAllEv
  | response (sn : Nat) (ret : ApiReturn R)
deriving DecidableEq, Repr

/-- One step of the client under an event; the second component is the
delivery handed to a caller, if any. -/
def step {R : Type} (c : Client) : Event R → Client × Option (Nat × ApiReturn R)
  | .call key => ((callApi c key).1, none)
  | .abortEv sn => (abort c sn, none)
  | .abortByKeyEv key => (abortByKey c key, none)
  | .abortAllEv => (abortAll c, none)
  | .response sn ret => onResponse c sn ret

/-- Run of the client over a sequence of events, collecting every
delivery that reaches a caller. -/
def run {R : Type} (c : Client) : List (Event R) → Client × List (Nat × ApiReturn R)
  | [] => (c, [])
  | e :: es =>
    match step c e with
    | (c1, d) =>
      match run c1 es with
      | (c2, ds) => (c2, match d with | some x => x :: ds | none => ds)

/-- Sequence numbers are pairwise distinct among the tracked handles and
never exceed the SN counter: the well-formedness invariant of a client. -/
def WF (c : Client) : Prop :=
  (∀ r ∈ c.requests, r.sn ≤ c.snCounter) ∧
  c.requests.Pairwise (fun a b => a.sn ≠ b.sn)

/-- Every `ApiReturn` value populates exactly one of `res` and `err`. -/
theorem ApiReturn.exactlyOne {Res : Type} (r : ApiReturn Res) :
    exactlyOneVariant r := by
  cases r <;> simp [exactlyOneVariant, ApiReturn.res, ApiReturn.err]

/-- A handle found by `findReq` carries the sequence number looked up. -/
theorem findReq_sn {sn : Nat} {l : List Request} {r : Request}
    (h : findReq sn l = some r) : r.sn = sn := by
  induction l with
  | nil => simp [findReq] at h
  | cons x t ih =>
    by_cases hx : x.sn = sn
    · simp [findReq, hx] at h; simpa [← h]
    · simp [findReq, hx] at h; exact ih h

/-- Lookup commutes with mapping a sequence-number-preserving function
over the handle list. -/
theorem findReq_map (f : Request → Request) (hf : ∀ r, (f r).sn = r.sn)
    (sn : Nat) (l : List Request) :
    findReq sn (l.map f) = (findReq sn l).map f := by
  induction l with
  | nil => rfl
  | cons x t ih =>
    by_cases hx : x.sn = sn <;> simp [findReq, hf, hx, ih]

/-- A successful lookup is unchanged by appending further handles. -/
theorem findReq_append_some {sn : Nat} {l : List Request} {r : Request}
    (h : findReq sn l = some r) (l2 : List Request) :
    findReq sn (l ++ l2) = some r := by
  induction l with
  | nil => simp [findReq] at h
  | cons x t ih =>
    by_cases hx : x.sn = sn <;> simp [findReq, hx] at h ⊢
    · exact h
    · exact ih h

/-- With pairwise-distinct sequence numbers, two handles of the list
sharing a sequence number are the same handle. -/
theorem pairwise_sn_unique {l : List Request}
    (h : l.Pairwise (fun a b => a.sn ≠ b.sn)) :
    ∀ a ∈ l, ∀ b ∈ l, a.sn = b.sn → a = b := by
  induction l with
  | nil => simp
  | cons x t ih =>
    rcases List.pairwise_cons.mp h with ⟨hx, ht⟩
    intro a ha b hb hab
    rcases List.mem_cons.mp ha with rfl | ha2 <;>
      rcases List.mem_cons.mp hb with rfl | hb2
    · rfl
    · exact absurd hab (hx b hb2)
    · exact absurd hab.symm (hx a ha2)
    · exact ih ht a ha2 b hb2 hab

/-- Pointwise effect of aborting every sequence number of a list. -/
def abortMany (L : List Nat) (r : Request) : Request :=
  if r.sn ∈ L ∧ r.state = .Pending then { r with state := .Aborted } else r

/-- Aborting one more sequence number first composes pointwise. -/
theorem abortMany_abortReq (a : Nat) (L : List Nat) (r : Request) :
    abortMany L (abortReq a r) = abortMany (a :: L) r := by
  by_cases h1 : r.sn = a <;> by_cases h2 : r.state = .Pending <;>
    simp [abortMany, abortReq, h1, h2]

/-- Characterization of folding `abort` over a list of sequence
numbers: each Pending handle whose number is in the list is aborted,
everything else (including the counters) is unchanged. -/
theorem foldl_abort_eq (L : List Nat) (c : Client) :
    List.foldl abort c L =
      { c with requests := c.requests.map (abortMany L) } := by
  induction L generalizing c with
  | nil =>
    have : ∀ r ∈ c.requests, abortMany [] r = r := by
      intro r _; simp [abortMany]
    cases c
    simp only [List.foldl_nil]
    congr 1
    rw [List.map_congr_left this, List.map_id']
  | cons a L ih =>
    rw [List.foldl_cons, ih]
    cases c
    simp only [abort, List.map_map]
    congr 1
    exact List.map_congr_left fun r _ => abortMany_abortReq a L r

/-- Functions that preserve sequence numbers and leave settled handles
unchanged preserve the looked-up state of a settled handle. -/
theorem findReq_map_settled {sn : Nat} {l : List Request} {r : Request}
    (f : Request → Request) (hf : ∀ x, (f x).sn = x.sn)
    (hid : ∀ x, x.state ≠ .Pending → f x = x)
    (hr : findReq sn l = some r) (hst : r.state ≠ .Pending) :
    findReq sn (l.map f) = some r := by
  rw [findReq_map f hf, hr]
  simp [hid r hst]

/-- The `abortReq` transition never changes the sequence number. -/
theorem abortReq_sn (a : Nat) (r : Request) : (abortReq a r).sn = r.sn := by
  by_cases h : r.sn = a ∧ r.state = .Pending <;> simp [abortReq, h]

/-- The `completeReq` transition never changes the sequence number. -/
theorem completeReq_sn (a : Nat) (r : Request) :
    (completeReq a r).sn = r.sn := by
  by_cases h : r.sn = a ∧ r.state = .Pending <;> simp [completeReq, h]

/-- The `abortReq` transition leaves settled handles unchanged. -/
theorem abortReq_settled (a : Nat) (r : Request)
    (h : r.state ≠ .Pending) : abortReq a r = r := by
  simp [abortReq, h]

/-- The `completeReq` transition leaves settled handles unchanged. -/
theorem completeReq_settled (a : Nat) (r : Request)
    (h : r.state ≠ .Pending) : completeReq a r = r := by
  simp [completeReq, h]

/-- The `abortMany` transition never changes the sequence number. -/
theorem abortMany_sn (L : List Nat) (r : Request) :
    (abortMany L r).sn = r.sn := by
  by_cases h : r.sn ∈ L ∧ r.state = .Pending <;> simp [abortMany, h]

/-- The `abortMany` transition leaves settled handles unchanged. -/
theorem abortMany_settled (L : List Nat) (r : Request)
    (h : r.state ≠ .Pending) : abortMany L r = r := by
  simp [abortMany, h]

/-- A handle found by `findReq` is a member of the list. -/
theorem findReq_mem {sn : Nat} {l : List Request} {r : Request}
    (h : findReq sn l = some r) : r ∈ l := by
  induction l with
  | nil => simp [findReq] at h
  | cons x t ih =>
    by_cases hx : x.sn = sn <;> simp [findReq, hx] at h
    · simp [h]
    · exact List.mem_cons_of_mem x (ih h)

/-- Aborting the same sequence number twice is the same transition. -/
theorem abortReq_idem (a : Nat) (r : Request) :
    abortReq a (abortReq a r) = abortReq a r := by
  by_cases h1 : r.sn = a <;> by_cases h2 : r.state = .Pending <;>
    simp [abortReq, h1, h2]

/-- A settled handle survives any single event unchanged, and the event
delivers nothing for its sequence number. -/
theorem step_settled {R : Type} (c : Client) (e : Event R) (sn : Nat)
    (r : Request) (hr : findReq sn c.requests = some r)
    (hst : r.state ≠ .Pending) :
    findReq sn (step c e).1.requests = some r ∧
      ∀ x, (step c e).2 = some x → x.1 ≠ sn := by
  cases e with
  | call key =>
    refine ⟨?_, by intro x hx; simp [step] at hx⟩
    simpa [step, callApi] using findReq_append_some hr _
  | abortEv a =>
    refine ⟨?_, by intro x hx; simp [step] at hx⟩
    simpa [step, abort] using
      findReq_map_settled (abortReq a) (abortReq_sn a) (abortReq_settled a)
        hr hst
  | abortByKeyEv key =>
    refine ⟨?_, by intro x hx; simp [step] at hx⟩
    simp only [step, abortByKey, foldl_abort_eq]
    exact findReq_map_settled _ (abortMany_sn _) (abortMany_settled _) hr hst
  | abortAllEv =>
    refine ⟨?_, by intro x hx; simp [step] at hx⟩
    simp only [step, abortAll, foldl_abort_eq]
    exact findReq_map_settled _ (abortMany_sn _) (abortMany_settled _) hr hst
  | response a ret =>
    simp only [step, onResponse]
    cases hfa : findReq a c.requests with
    | none => exact ⟨hr, by simp⟩
    | some r2 =>
      by_cases hp : r2.state = .Pending
      · have hne : a ≠ sn := by
          intro heq
          subst heq
          rw [hr] at hfa
          exact hst (by cases hfa; exact hp)
        simp only [hp, if_pos rfl]
        refine ⟨?_, ?_⟩
        · exact findReq_map_settled _ (completeReq_sn a) (completeReq_settled a)
            hr hst
        · intro x hx
          cases hx
          exact hne
      · simp [hp, hr]

/-- A settled handle survives any run of events unchanged, and the run
delivers nothing for its sequence number. -/
theorem run_settled {R : Type} (c : Client) (evs : List (Event R)) (sn : Nat)
    (r : Request) (hr : findReq sn c.requests = some r)
    (hst : r.state ≠ .Pending) :
    findReq sn (run c evs).1.requests = some r ∧
      ∀ p ∈ (run c evs).2, p.1 ≠ sn := by
  induction evs generalizing c with
  | nil => exact ⟨hr, by simp [run]⟩
  | cons e es ih =>
    obtain ⟨h1, h2⟩ := step_settled c e sn r hr hst
    simp only [run]
    cases hs : step c e with
    | mk c1 d =>
      rw [hs] at h1 h2
      obtain ⟨ih1, ih2⟩ := ih c1 h1
      cases hrun : run c1 es with
      | mk c2 ds =>
        rw [hrun] at ih1 ih2
        refine ⟨ih1, ?_⟩
        intro p hp
        cases d with
        | none => exact ih2 p hp
        | some x =>
          rcases List.mem_cons.mp hp with rfl | hp2
          · exact h2 p rfl
          · exact ih2 p hp2

/-- Mapping a sequence-number-preserving transition over the handles
preserves the client well-formedness invariant. -/
theorem WF_map (c : Client) (f : Request → Request)
    (hf : ∀ r, (f r).sn = r.sn) (h : WF c) :
    WF { c with requests := c.requests.map f } := by
  obtain ⟨hb, hpw⟩ := h
  constructor
  · intro r hr
    rcases List.mem_map.mp hr with ⟨x, hx, rfl⟩
    rw [hf x]
    exact hb x hx
  · rw [List.pairwise_map]
    exact hpw.imp fun hab => by simpa [hf] using hab

/-- C1: every settled `ApiReturn` populates exactly one of the success
payload `res` (with `isSucc: true`) and the structured error `err`
(with `isSucc: false`) — never both, never neither. -/
theorem apiReturn_exactly_one_variant {Res : Type} (r : ApiReturn Res) :
    exactlyOneVariant r ∧
    ¬((r.res).isSome = true ∧ (r.err).isSome = true) ∧
    (r.isSucc = true ↔ (r.res).isSome = true) ∧
    (r.isSucc = false ↔ (r.err).isSome = true) := by
  refine ⟨ApiReturn.exactlyOne r, ?_⟩
  cases r <;> simp [ApiReturn.isSucc, ApiReturn.res, ApiReturn.err]

/-- Closed instance of the exactly-one-variant property on concrete
success and error values. -/
theorem apiReturn_exactly_one_variant_witness :
    exactlyOneVariant (ApiReturn.succ (7 : Nat)) ∧
    exactlyOneVariant
      ((ApiReturn.error ⟨.Business, "insufficient balance"⟩ : ApiReturn Nat)) :=
  ⟨(apiReturn_exactly_one_variant (ApiReturn.succ (7 : Nat))).1,
   (apiReturn_exactly_one_variant
      ((ApiReturn.error ⟨.Business, "insufficient balance"⟩ : ApiReturn Nat))).1⟩

/-- C2: every settlement path — success, business error, transport
error, timeout — produces exactly one `ApiReturn`, never through the
exceptional channel, with every failure surfaced in the `err` variant
inspected via `isSucc`. -/
theorem callApi_settles_no_exception {Res : Type} (t : Option Nat)
    (el : Nat) (o : RawOutcome Res) :
    callApiSettles t el o = Except.ok (settle t el o) ∧
    (∀ msg, callApiSettles t el o ≠ Except.error msg) ∧
    exactlyOneVariant (settle t el o) ∧
    ((settle t el o).isSucc = false ↔ ((settle t el o).err).isSome = true) ∧
    (timedOut t el = true →
      settle t el o = .error ⟨.Timeout, "Request Timeout"⟩) ∧
    (∀ m, o = .businessError m → timedOut t el = false →
      settle t el o = .error ⟨.Business, m⟩) ∧
    (∀ m, o = .transportError m → timedOut t el = false →
      settle t el o = .error ⟨.Network, m⟩) := by
  refine ⟨rfl, by intro msg h; simp [callApiSettles] at h,
    ApiReturn.exactlyOne _, ?_, ?_, ?_, ?_⟩
  · cases h : settle t el o <;>
      simp [ApiReturn.isSucc, ApiReturn.err]
  · intro ht; simp [settle, ht]
  · intro m hm ht; simp [settle, ht, hm, normalizeOutcome]
  · intro m hm ht; simp [settle, ht, hm, normalizeOutcome]

/-- Closed instance of the settlement contract: a timed-out call and a
business failure each settle as the error variant, never an exception. -/
theorem callApi_settles_no_exception_witness :
    (timedOut (some 100) 200 = true ∧
      settle (some 100) 200 (RawOutcome.success (1 : Nat)) =
        .error ⟨.Timeout, "Request Timeout"⟩) ∧
    ((RawOutcome.businessError "wrong password" : RawOutcome Nat) =
        .businessError "wrong password" ∧
      timedOut none 5 = false ∧
      settle none 5 ((RawOutcome.businessError "wrong password" : RawOutcome Nat)) =
        .error ⟨.Business, "wrong password"⟩) :=
  ⟨⟨by decide,
    (callApi_settles_no_exception (some 100) 200
      (RawOutcome.success (1 : Nat))).2.2.2.2.1 (by decide)⟩,
   ⟨rfl, by decide,
    (callApi_settles_no_exception none 5
      (RawOutcome.businessError "wrong password")).2.2.2.2.2.1
      "wrong password" rfl (by decide)⟩⟩

/-- C9: a configured timeout of `undefined` (`none`) or `0` imposes no
time limit — no call under either setting ever settles with a
timeout-kind error. -/
theorem timeout_zero_or_none_no_limit {Res : Type} (el : Nat)
    (o : RawOutcome Res) :
    timedOut none el = false ∧ timedOut (some 0) el = false ∧
    Option.map TsrpcError.type (settle none el o).err ≠
      some ErrKind.Timeout ∧
    Option.map TsrpcError.type (settle (some 0) el o).err ≠
      some ErrKind.Timeout := by
  refine ⟨rfl, rfl, ?_, ?_⟩ <;> cases o <;>
    simp [settle, timedOut, normalizeOutcome, ApiReturn.err]

/-- Closed instance: even after an arbitrarily long elapsed time, a
transport failure under `timeout: undefined` is not a timeout error. -/
theorem timeout_zero_or_none_no_limit_witness :
    Option.map TsrpcError.type
        (settle none 1000000 ((RawOutcome.transportError "down" : RawOutcome Nat))).err ≠
      some ErrKind.Timeout :=
  (timeout_zero_or_none_no_limit 1000000
    ((RawOutcome.transportError "down" : RawOutcome Nat))).2.2.1

/-- C8: constructing an `HttpClient` or `WsClient` without the optional
configuration fields yields `json = false`, `jsonPrune = true`,
`debugBuf = false`, and absent (`none`) `logger` and `timeout`. -/
theorem client_options_defaults (server : Option String) :
    (applyHttpDefaults ⟨server, none, none, none, none, none⟩).json = false ∧
    (applyHttpDefaults ⟨server, none, none, none, none, none⟩).jsonPrune = true ∧
    (applyHttpDefaults ⟨server, none, none, none, none, none⟩).debugBuf = false ∧
    (applyHttpDefaults ⟨server, none, none, none, none, none⟩).logger = none ∧
    (applyHttpDefaults ⟨server, none, none, none, none, none⟩).timeout = none ∧
    (applyWsDefaults ⟨server, none, none, none, none, none⟩).json = false ∧
    (applyWsDefaults ⟨server, none, none, none, none, none⟩).jsonPrune = true ∧
    (applyWsDefaults ⟨server, none, none, none, none, none⟩).debugBuf = false ∧
    (applyWsDefaults ⟨server, none, none, none, none, none⟩).logger = none ∧
    (applyWsDefaults ⟨server, none, none, none, none, none⟩).timeout = none := by
  simp [applyHttpDefaults, applyWsDefaults]

/-- C10: an `HttpClient` constructed without a `server` field defaults
to exactly `"http://127.0.0.1:3000"`, whatever the other fields are. -/
theorem server_default_url (j jp db : Option Bool) (lg : Option Logger)
    (t : Option Nat) :
    (applyHttpDefaults ⟨none, j, jp, lg, t, db⟩).server =
      "http://127.0.0.1:3000" := rfl

/-- C3: aborting a Pending request by its SN transitions it to Aborted;
under every continuation of events it stays Aborted, and no delivery for
that SN — in particular no late transport response — ever reaches a
caller, so the returned promise neither resolves nor rejects. -/
theorem abort_pending_discards_response (c : Client) (sn : Nat)
    (h : getState c sn = some .Pending) :
    getState (abort c sn) sn = some .Aborted ∧
    ∀ evs : List (Event Nat),
      getState (run (abort c sn) evs).1 sn = some .Aborted ∧
      ∀ p ∈ (run (abort c sn) evs).2, p.1 ≠ sn := by
  obtain ⟨r, hr, hrs⟩ := Option.map_eq_some'.mp h
  have hsn := findReq_sn hr
  have habort :
      findReq sn (abort c sn).requests = some { r with state := .Aborted } := by
    simp only [abort]
    rw [findReq_map (abortReq sn) (abortReq_sn sn), hr]
    simp [abortReq, hsn, hrs]
  refine ⟨by simp [getState, habort], ?_⟩
  intro evs
  obtain ⟨h1, h2⟩ :=
    run_settled (abort c sn) evs sn { r with state := .Aborted } habort
      (by simp)
  exact ⟨by simp [getState, h1], h2⟩

/-- Closed instance: aborting the Pending request 1 leaves it Aborted
and a transport response for SN 1 arriving afterwards is discarded — the
run delivers nothing for SN 1. -/
theorem abort_pending_discards_response_witness :
    getState (abort ⟨1, 1, [⟨1, none, .Pending⟩]⟩ 1) 1 = some .Aborted ∧
    ∀ p ∈ (run (abort ⟨1, 1, [⟨1, none, .Pending⟩]⟩ 1)
        [Event.response 1 (ApiReturn.succ (42 : Nat))]).2, p.1 ≠ 1 :=
  ⟨(abort_pending_discards_response ⟨1, 1, [⟨1, none, .Pending⟩]⟩ 1
      (by decide)).1,
   ((abort_pending_discards_response ⟨1, 1, [⟨1, none, .Pending⟩]⟩ 1
      (by decide)).2 [Event.response 1 (ApiReturn.succ (42 : Nat))]).2⟩

/-- C4: with well-formed (pairwise-distinct) sequence numbers,
`abortByKey k` aborts exactly the Pending requests registered with
abortKey `k`; every other handle — different key, no key, or already
settled — and the counters are left unchanged. -/
theorem abortByKey_affects_only_matching_pending (c : Client) (k : String)
    (hpw : c.requests.Pairwise (fun a b => a.sn ≠ b.sn)) :
    (abortByKey c k).requests =
      c.requests.map (fun r =>
        if r.state = .Pending ∧ r.abortKey = some k
        then { r with state := .Aborted } else r) ∧
    (abortByKey c k).snCounter = c.snCounter ∧
    (abortByKey c k).lastSN = c.lastSN := by
  have hkey : ∀ r ∈ c.requests,
      (r.sn ∈ (c.requests.filter
          (fun x => x.abortKey = some k)).map Request.sn
        ↔ r.abortKey = some k) := by
    intro r hrm
    constructor
    · intro hmem
      rcases List.mem_map.mp hmem with ⟨r2, hr2f, hsn⟩
      rcases List.mem_filter.mp hr2f with ⟨hr2m, hr2k⟩
      have heq : r2 = r := pairwise_sn_unique hpw r2 hr2m r hrm hsn
      rw [← heq]
      exact of_decide_eq_true hr2k
    · intro hk
      exact List.mem_map.mpr
        ⟨r, List.mem_filter.mpr ⟨hrm, by simp [hk]⟩, rfl⟩
  unfold abortByKey
  rw [foldl_abort_eq]
  refine ⟨?_, rfl, rfl⟩
  apply List.map_congr_left
  intro r hrm
  by_cases hp : r.state = .Pending <;> by_cases hk : r.abortKey = some k <;>
    simp [abortMany, hp, hk, hkey r hrm]

/-- Closed instance of the documented scenario: requests A (SN 1) and B
(SN 2) carry abortKey X, request C (SN 3) has no abortKey; after
`abortByKey X`, A and B are Aborted and C is untouched. -/
theorem abortByKey_affects_only_matching_pending_witness :
    (abortByKey
        ⟨3, 3, [⟨1, some "X", .Pending⟩, ⟨2, some "X", .Pending⟩,
          ⟨3, none, .Pending⟩]⟩ "X").requests =
      [⟨1, some "X", .Aborted⟩, ⟨2, some "X", .Aborted⟩,
        ⟨3, none, .Pending⟩] :=
  Eq.trans
    (abortByKey_affects_only_matching_pending
      ⟨3, 3, [⟨1, some "X", .Pending⟩, ⟨2, some "X", .Pending⟩,
        ⟨3, none, .Pending⟩]⟩ "X" (by decide)).1
    (by decide)

/-- C5: `abortAll` transitions every Pending request to Aborted — after
it returns no handle of the client is Pending — and settled handles and
the counters are unchanged. -/
theorem abortAll_clears_pending (c : Client) :
    (abortAll c).requests =
      c.requests.map (fun r =>
        if r.state = .Pending then { r with state := .Aborted } else r) ∧
    (∀ r ∈ (abortAll c).requests, r.state ≠ .Pending) ∧
    (abortAll c).snCounter = c.snCounter ∧
    (abortAll c).lastSN = c.lastSN := by
  have hmap : (abortAll c).requests =
      c.requests.map (fun r =>
        if r.state = .Pending then { r with state := .Aborted } else r) := by
    unfold abortAll
    rw [foldl_abort_eq]
    apply List.map_congr_left
    intro r hrm
    have hin : r.sn ∈ c.requests.map Request.sn :=
      List.mem_map.mpr ⟨r, hrm, rfl⟩
    by_cases hp : r.state = .Pending <;> simp [abortMany, hp, hin]
  refine ⟨hmap, ?_, ?_, ?_⟩
  · intro r hr
    rw [hmap] at hr
    rcases List.mem_map.mp hr with ⟨x, _, rfl⟩
    by_cases hp : x.state = .Pending <;> simp [hp]
  · unfold abortAll; rw [foldl_abort_eq]
  · unfold abortAll; rw [foldl_abort_eq]

/-- Closed instance: `abortAll` on a client with Pending, Completed and
Aborted handles leaves no Pending handle. -/
theorem abortAll_clears_pending_witness :
    ∀ r ∈ (abortAll ⟨3, 3, [⟨1, none, .Pending⟩, ⟨2, some "X", .Completed⟩,
        ⟨3, none, .Pending⟩]⟩).requests, r.state ≠ .Pending :=
  (abortAll_clears_pending
    ⟨3, 3, [⟨1, none, .Pending⟩, ⟨2, some "X", .Completed⟩,
      ⟨3, none, .Pending⟩]⟩).2.1

/-- C6: a settled handle never transitions again — aborting the same SN
twice is the same as once, aborting an already-settled SN of a
well-formed client is a no-op on the whole client, and under any event a
settled state persists with no delivery for its SN. -/
theorem settled_request_never_transitions :
    (∀ (c : Client) (sn : Nat), abort (abort c sn) sn = abort c sn) ∧
    (∀ (c : Client) (sn : Nat) (st : ReqState),
      c.requests.Pairwise (fun a b => a.sn ≠ b.sn) →
      st ≠ .Pending → getState c sn = some st → abort c sn = c) ∧
    (∀ (c : Client) (e : Event Nat) (sn : Nat) (st : ReqState),
      st ≠ .Pending → getState c sn = some st →
      getState (step c e).1 sn = some st ∧
        ∀ x, (step c e).2 = some x → x.1 ≠ sn) := by
  refine ⟨?_, ?_, ?_⟩
  · intro c sn
    cases c with
    | mk n ls reqs =>
      simp only [abort, List.map_map]
      congr 1
      exact List.map_congr_left fun r _ => abortReq_idem sn r
  · intro c sn st hpw hst h
    obtain ⟨r, hr, hrs⟩ := Option.map_eq_some'.mp h
    have hrm := findReq_mem hr
    have hid : ∀ x ∈ c.requests, abortReq sn x = x := by
      intro x hx
      by_cases hxs : x.sn = sn
      · have heq : x = r :=
          pairwise_sn_unique hpw x hx r hrm (by rw [hxs, findReq_sn hr])
        rw [heq]
        exact abortReq_settled sn r (by rw [hrs]; exact hst)
      · simp [abortReq, hxs]
    cases c with
    | mk n ls reqs =>
      simp only [abort]
      congr 1
      rw [List.map_congr_left hid, List.map_id']
  · intro c e sn st hst h
    obtain ⟨r, hr, hrs⟩ := Option.map_eq_some'.mp h
    obtain ⟨h1, h2⟩ := step_settled c e sn r hr (by rw [hrs]; exact hst)
    exact ⟨by simp [getState, h1, hrs], h2⟩

/-- Closed instance: a second abort of SN 2 changes nothing, and
aborting the naturally-Completed SN 1 leaves the client untouched. -/
theorem settled_request_never_transitions_witness :
    abort (abort ⟨2, 2, [⟨1, none, .Completed⟩, ⟨2, none, .Pending⟩]⟩ 2) 2 =
      abort ⟨2, 2, [⟨1, none, .Completed⟩, ⟨2, none, .Pending⟩]⟩ 2 ∧
    abort ⟨2, 2, [⟨1, none, .Completed⟩, ⟨2, none, .Pending⟩]⟩ 1 =
      ⟨2, 2, [⟨1, none, .Completed⟩, ⟨2, none, .Pending⟩]⟩ :=
  ⟨settled_request_never_transitions.1
      ⟨2, 2, [⟨1, none, .Completed⟩, ⟨2, none, .Pending⟩]⟩ 2,
   settled_request_never_transitions.2.1
      ⟨2, 2, [⟨1, none, .Completed⟩, ⟨2, none, .Pending⟩]⟩ 1 .Completed
      (by decide) (by decide) (by decide)⟩

/-- C7: on a well-formed client, `callApi` assigns a sequence number
distinct from every tracked one, records it as `lastSN` immediately, and
preserves well-formedness; every other event also preserves
well-formedness, so SNs stay unique for the life of the instance. -/
theorem callApi_sn_unique_lastSN :
    (∀ (c : Client) (key : Option String), WF c →
      (callApi c key).2 ∉ c.requests.map Request.sn ∧
      (callApi c key).1.lastSN = (callApi c key).2 ∧
      WF (callApi c key).1) ∧
    (∀ (c : Client) (e : Event Nat), WF c → WF (step c e).1) := by
  have hcall : ∀ (c : Client) (key : Option String), WF c →
      (callApi c key).2 ∉ c.requests.map Request.sn ∧
      (callApi c key).1.lastSN = (callApi c key).2 ∧
      WF (callApi c key).1 := by
    intro c key h
    obtain ⟨hb, hpw⟩ := h
    refine ⟨?_, rfl, ?_, ?_⟩
    · show c.snCounter + 1 ∉ c.requests.map Request.sn
      intro hmem
      rcases List.mem_map.mp hmem with ⟨r, hrm, hsn⟩
      have hle := hb r hrm
      omega
    · show ∀ r ∈ c.requests ++ [⟨c.snCounter + 1, key, .Pending⟩],
        r.sn ≤ c.snCounter + 1
      intro r hr
      rcases List.mem_append.mp hr with h1 | h1
      · exact Nat.le_succ_of_le (hb r h1)
      · have heq : r = ⟨c.snCounter + 1, key, .Pending⟩ := by simpa using h1
        rw [heq]
    · show (c.requests ++
          ([⟨c.snCounter + 1, key, .Pending⟩] : List Request)).Pairwise
        (fun a b => a.sn ≠ b.sn)
      rw [List.pairwise_append]
      refine ⟨hpw, by simp, ?_⟩
      intro a ha b hbm
      have heq : b = ⟨c.snCounter + 1, key, .Pending⟩ := by simpa using hbm
      have hle := hb a ha
      rw [heq]
      show a.sn ≠ c.snCounter + 1
      omega
  refine ⟨hcall, ?_⟩
  intro c e h
  cases e with
  | call key => exact (hcall c key h).2.2
  | abortEv a => exact WF_map c (abortReq a) (abortReq_sn a) h
  | abortByKeyEv key =>
    show WF (abortByKey c key)
    unfold abortByKey
    rw [foldl_abort_eq]
    exact WF_map c _ (abortMany_sn _) h
  | abortAllEv =>
    show WF (abortAll c)
    unfold abortAll
    rw [foldl_abort_eq]
    exact WF_map c _ (abortMany_sn _) h
  | response a ret =>
    show WF (onResponse c a ret).1
    cases hfa : findReq a c.requests with
    | none => simpa [onResponse, hfa] using h
    | some r2 =>
      by_cases hp : r2.state = .Pending
      · have hm := WF_map c (completeReq a) (completeReq_sn a) h
        simpa [onResponse, hfa, hp] using hm
      · simpa [onResponse, hfa, hp] using h

/-- Closed instance: on a concrete well-formed client, the freshly
assigned SN 3 is new and equals `lastSN` right after the call. -/
theorem callApi_sn_unique_lastSN_witness :
    (callApi ⟨2, 2, [⟨1, none, .Completed⟩, ⟨2, some "X", .Pending⟩]⟩
        (some "X")).2 ∉
      (⟨2, 2, [⟨1, none, .Completed⟩,
        ⟨2, some "X", .Pending⟩]⟩ : Client).requests.map Request.sn ∧
    (callApi ⟨2, 2, [⟨1, none, .Completed⟩, ⟨2, some "X", .Pending⟩]⟩
        (some "X")).1.lastSN =
      (callApi ⟨2, 2, [⟨1, none, .Completed⟩, ⟨2, some "X", .Pending⟩]⟩
        (some "X")).2 :=
  ⟨(callApi_sn_unique_lastSN.1
      ⟨2, 2, [⟨1, none, .Completed⟩, ⟨2, some "X", .Pending⟩]⟩ (some "X")
      ⟨by decide, by decide⟩).1,
   (callApi_sn_unique_lastSN.1
      ⟨2, 2, [⟨1, none, .Completed⟩, ⟨2, some "X", .Pending⟩]⟩ (some "X")
      ⟨by decide, by decide⟩).2.1⟩
